import Mathlib

/-
Formal model of the ada-dev-rag-py-ai diagram pipeline and image batch cache.

The development shallowly embeds two modules:
  * `ada_dev_rag_py_ai/image_batch_processor.py` (ImageBatchProcessor):
    content hashing, the on-disk JSON cache with a TTL, the functools
    lru_cache memo layered over `_get_cached_result`, per-image processing
    with error capture, batch partitioning and result collection, and
    `clear_cache`.
  * `ada_dev_rag_py_ai/diagram_processor.py` (DiagramProcessor):
    contour classification, element construction, pairwise spatial-relation
    statements, and the composition of the final analysis document.

Modelling conventions:
  * machine integers are Nat/Int; timestamps and durations are Int, measured
    in seconds, with `timedelta(hours=n)` rendered as `hours n = n * 3600`;
  * fallible code returns Except/Option; a Python exception escaping a call
    is `Except.error msg`;
  * the filesystem is an association list `path ↦ bytes`; the cache
    directory an association list `filename ↦ entry`; the md5 digest is an
    arbitrary function of the bytes, passed as a parameter `hashFn` (all
    properties below hold for every digest function);
  * the thread pool of `process_batch` is serialized: the code collects
    futures in submission order (dict insertion order) and blocks on each
    `future.result()` in turn, so the shape and order of the records the
    batch returns do not depend on worker interleaving;
  * cache entries store parsed JSON payloads directly (entries written by
    `_save_to_cache` are always valid JSON, so the `json.load` failure
    branch that degrades to a miss is unreachable in this model);
  * numeric confidences and aspect ratios, floats in the source, are
    modelled as rationals; the literals 0.95 and 1.05 are 19/20 and 21/20;
  * CPython set iteration order in `list(set(...))` is implementation
    defined; it is modelled as first-seen order.
-/

namespace AdaRag

/-- JSON values, as produced by `json.load` and consumed by `json.dump`. -/
inductive Json where
  | null
  | bool (b : Bool)
  | num (n : Int)
  | str (s : String)
  | arr (elems : List Json)
  | obj (fields : List (String × Json))
deriving Repr

/-- Python truthiness of a parsed JSON value (`if cached_result:`). -/
def Json.isTruthy : Json → Bool
  | .null => false
  | .bool b => b
  | .num n => decide (n ≠ 0)
  | .str s => decide (s ≠ "")
  | .arr xs => !xs.isEmpty
  | .obj fs => !fs.isEmpty

/-- Bytes of a file. -/
abbrev Bytes := List Nat

/-- The filesystem visible to the processor: image path ↦ raw bytes.
A path absent from the list cannot be opened (raises on `open`). -/
abbrev FileSys := List (String × Bytes)

/-- One cache file in the cache directory: modification time and the
payload its JSON text parses to. -/
structure CacheEntry where
  mtime : Int
  payload : Json
deriving Repr

/-- The cache directory: cache filename (`<hash>.json`) ↦ entry. -/
abbrev CacheDir := List (String × CacheEntry)

/-- The functools lru_cache memo over `_get_cached_result`, keyed by the
image path, most recently used first.  A memoized value may itself be
`none` (the decorator caches a returned `None` too). -/
abbrev Memo := List (String × Option Json)

/-- `timedelta(hours = n)` in seconds. -/
def hours (n : Int) : Int := n * 3600

/-- Constructor arguments of ImageBatchProcessor that the model needs:
`cache_ttl` (in hours, default 24) and `batch_size` (default 4). -/
structure BatchConfig where
  cacheTTL : Int
  batchSize : Nat
deriving Repr, DecidableEq

/-- The mutable state of one ImageBatchProcessor instance: the cache
directory on disk and the in-process lru memo. -/
structure BatchState where
  cache : CacheDir
  memo : Memo
deriving Repr

/-- `_get_image_hash`: opens the file and hashes its raw bytes; opening a
missing file raises. -/
def getImageHash (hashFn : Bytes → String) (fs : FileSys) (path : String) :
    Except String String :=
  match fs.lookup path with
  | some bs => .ok (hashFn bs)
  | none => .error ("No such file or directory: " ++ path)

/-- `_get_cache_path`: cache filename for an image hash. -/
def getCachePath (h : String) : String := h ++ ".json"

/-- `_is_cache_valid`: the cache file exists and `now - mtime < ttl`. -/
def isCacheValid (cfg : BatchConfig) (now : Int) (cache : CacheDir)
    (cachePath : String) : Bool :=
  match cache.lookup cachePath with
  | none => false
  | some e => decide (now - e.mtime < hours cfg.cacheTTL)

/-- What `_get_cached_result` reads from disk for a hash on a memo miss:
the entry's payload when the cache file is valid, `None` otherwise. -/
def diskLookup (cfg : BatchConfig) (now : Int) (cache : CacheDir)
    (h : String) : Option Json :=
  if isCacheValid cfg now cache (getCachePath h) then
    (cache.lookup (getCachePath h)).map (fun e => e.payload)
  else none

/-- lru_cache hit lookup: the memoized value for a path, when present. -/
def memoHit (memo : Memo) (path : String) : Option (Option Json) :=
  memo.lookup path

/-- lru_cache recency update on a hit: the entry moves to most-recent. -/
def memoTouch (memo : Memo) (path : String) : Memo :=
  match memo.lookup path with
  | none => memo
  | some v => (path, v) :: memo.filter (fun kv => kv.1 ≠ path)

/-- lru_cache insertion after computing a fresh value: cons at the front
and evict beyond maxsize 100. -/
def memoInsert (memo : Memo) (path : String) (v : Option Json) : Memo :=
  ((path, v) :: memo).take 100

/-- `_get_cached_result` together with its `@lru_cache(maxsize=100)` layer.
On a memo hit the memoized value is returned without touching the disk;
otherwise the image is hashed (a read failure raises, and the decorator
does not memoize on an exception), the TTL is checked, and the looked-up
value (payload on a valid entry, `none` otherwise) is memoized and
returned. -/
def getCachedResult (cfg : BatchConfig) (hashFn : Bytes → String)
    (fs : FileSys) (now : Int) (st : BatchState) (path : String) :
    Except String (Option Json × BatchState) :=
  match memoHit st.memo path with
  | some v => .ok (v, { st with memo := memoTouch st.memo path })
  | none =>
    match getImageHash hashFn fs path with
    | .error e => .error e
    | .ok h =>
      let cp := getCachePath h
      let r : Option Json :=
        if isCacheValid cfg now st.cache cp then
          (st.cache.lookup cp).map (fun e => e.payload)
        else none
      .ok (r, { st with memo := memoInsert st.memo path r })

/-- `_save_to_cache`: writes the entry for the image's hash with
`mtime = now`, overwriting any previous entry for that filename; any
failure (for instance hashing a missing file) is caught and logged,
leaving the cache unchanged. -/
def saveToCache (hashFn : Bytes → String) (fs : FileSys) (now : Int)
    (st : BatchState) (path : String) (result : Json) : BatchState :=
  match getImageHash hashFn fs path with
  | .error _ => st
  | .ok h =>
    { st with cache :=
        (getCachePath h, ⟨now, result⟩) ::
          st.cache.filter (fun kv => kv.1 ≠ getCachePath h) }

/-- `_process_single_image`: consult the cache first; a truthy cached
payload is returned as-is.  Otherwise the supplied analysis function is
invoked inside a try block: on success the result is stored in the cache
and returned, on failure the value `{"error": str(e)}` is returned.  The
only exception that escapes is a file-read failure raised while hashing
during the cache lookup (it occurs before the try block). -/
def processSingleImage (cfg : BatchConfig) (hashFn : Bytes → String)
    (fs : FileSys) (now : Int) (analyze : String → Except String Json)
    (st : BatchState) (path : String) : Except String (Json × BatchState) :=
  match getCachedResult cfg hashFn fs now st path with
  | .error e => .error e
  | .ok (cached, st1) =>
    let fallback : Except String (Json × BatchState) :=
      match analyze path with
      | .ok r => .ok (r, saveToCache hashFn fs now st1 path r)
      | .error e => .ok (Json.obj [("error", Json.str e)], st1)
    match cached with
    | some r => if r.isTruthy then .ok (r, st1) else fallback
    | none => fallback

/-- One record of the batch result list: either
`{"path": p, "result": r}` or `{"path": p, "error": str(e)}`. -/
inductive BatchRecord where
  | result (path : String) (r : Json)
  | error (path : String) (e : String)
deriving Repr

/-- The `"path"` field of a batch record. -/
def BatchRecord.path : BatchRecord → String
  | .result p _ => p
  | .error p _ => p

/-- Whether a batch record is of the `{"path", "error"}` shape. -/
def BatchRecord.isError : BatchRecord → Bool
  | .result _ _ => false
  | .error _ _ => true

/-- Processing of one submitted group: each path of the group is processed
in submission order (the code iterates the future dict in insertion order
and blocks on each `future.result()` in turn); a result gives a
`result` record, an escaped exception an `error` record. -/
def processBatchGroup (cfg : BatchConfig) (hashFn : Bytes → String)
    (fs : FileSys) (now : Int) (analyze : String → Except String Json) :
    List String → BatchState → List BatchRecord × BatchState
  | [], st => ([], st)
  | p :: ps, st =>
    match processSingleImage cfg hashFn fs now analyze st p with
    | .ok (r, st1) =>
      let rest := processBatchGroup cfg hashFn fs now analyze ps st1
      (BatchRecord.result p r :: rest.1, rest.2)
    | .error e =>
      let rest := processBatchGroup cfg hashFn fs now analyze ps st
      (BatchRecord.error p e :: rest.1, rest.2)

/-- Fuel-indexed partitioning of a list into consecutive slices of size
`n`, models `[paths[i:i+bs] for i in range(0, len(paths), bs)]`.  The fuel
starts at the list's length; it only runs out when `n = 0` (where the
Python comprehension raises `ValueError`). -/
def chunksOfGo (n : Nat) : Nat → List α → List (List α)
  | _, [] => []
  | 0, _ => []
  | fuel + 1, x :: xs => ((x :: xs).take n) :: chunksOfGo n fuel ((x :: xs).drop n)

/-- Partition a list into consecutive slices of size `n`. -/
def chunksOf (n : Nat) (l : List α) : List (List α) :=
  chunksOfGo n l.length l

/-- Processing of a list of groups, in order, threading the state. -/
def processBatchAux (cfg : BatchConfig) (hashFn : Bytes → String)
    (fs : FileSys) (now : Int) (analyze : String → Except String Json) :
    List (List String) → BatchState → List BatchRecord × BatchState
  | [], st => ([], st)
  | g :: gs, st =>
    let first := processBatchGroup cfg hashFn fs now analyze g st
    let rest := processBatchAux cfg hashFn fs now analyze gs first.2
    (first.1 ++ rest.1, rest.2)

/-- `process_batch`: partition the paths into groups of `batch_size` and
process the groups in order, extending one result list. -/
def processBatch (cfg : BatchConfig) (hashFn : Bytes → String)
    (fs : FileSys) (now : Int) (analyze : String → Except String Json)
    (st : BatchState) (paths : List String) :
    List BatchRecord × BatchState :=
  processBatchAux cfg hashFn fs now analyze (chunksOf cfg.batchSize paths) st

/-- Whether `clear_cache` keeps a cache entry: with a threshold of `n`
hours, entries younger than the threshold are skipped (kept); with no
threshold nothing is kept. -/
def keepEntry (now : Int) (olderThan : Option Int) (e : CacheEntry) : Bool :=
  match olderThan with
  | some n => decide (now - e.mtime < hours n)
  | none => false

/-- Body of `clear_cache`'s try block: iterate the cache files in
directory order, unlink every entry not kept; a failing unlink raises,
leaving that entry and all the following ones in place.  `unlinkFails`
says which filenames fail to unlink. -/
def clearCacheBody (now : Int) (olderThan : Option Int)
    (unlinkFails : String → Bool) :
    CacheDir → Except (String × CacheDir) CacheDir
  | [] => .ok []
  | (name, e) :: rest =>
    if keepEntry now olderThan e then
      match clearCacheBody now olderThan unlinkFails rest with
      | .ok c => .ok ((name, e) :: c)
      | .error (msg, c) => .error (msg, (name, e) :: c)
    else
      if unlinkFails name then
        .error ("unlink failed: " ++ name, (name, e) :: rest)
      else
        clearCacheBody now olderThan unlinkFails rest

/-- `clear_cache`: runs the body under `try`; an exception is caught and
logged (returned here as the second component), never re-raised, and the
partially pruned directory is what remains. -/
def clearCache (now : Int) (olderThan : Option Int)
    (unlinkFails : String → Bool) (cache : CacheDir) :
    CacheDir × Option String :=
  match clearCacheBody now olderThan unlinkFails cache with
  | .ok c => (c, none)
  | .error (msg, c) => (c, some msg)

/-- One call against the cache layer in the same process: a `get` is
`_get_cached_result` at time `t` (updating the memo), a `put` is
`_save_to_cache` at time `t`. -/
inductive CacheOp where
  | get (t : Int) (path : String)
  | put (t : Int) (path : String) (payload : Json)
deriving Repr

/-- Effect of one cache operation on the processor state. -/
def runOp (cfg : BatchConfig) (hashFn : Bytes → String) (fs : FileSys)
    (st : BatchState) : CacheOp → BatchState
  | .get t p =>
    match getCachedResult cfg hashFn fs t st p with
    | .ok (_, st1) => st1
    | .error _ => st
  | .put t p payload => saveToCache hashFn fs t st p payload

/-- Effect of a sequence of cache operations, oldest first. -/
def runOps (cfg : BatchConfig) (hashFn : Bytes → String) (fs : FileSys)
    (st : BatchState) (ops : List CacheOp) : BatchState :=
  ops.foldl (runOp cfg hashFn fs) st

/-- Value component of a cache lookup outcome, when no exception was
raised. -/
def getResultValue (x : Except String (Option Json × BatchState)) :
    Option (Option Json) :=
  match x with
  | .ok (v, _) => some v
  | .error _ => none

/-- State component of a cache lookup outcome, when no exception was
raised. -/
def getResultState (x : Except String (Option Json × BatchState)) :
    Option BatchState :=
  match x with
  | .ok (_, st) => some st
  | .error _ => none

/-- Result component of a single-image processing outcome. -/
def processValue (x : Except String (Json × BatchState)) : Option Json :=
  match x with
  | .ok (r, _) => some r
  | .error _ => none

/-- Axis-aligned bounding box `(x1, y1, x2, y2)` of a detected element. -/
structure Bbox where
  x1 : Nat
  y1 : Nat
  x2 : Nat
  y2 : Nat
deriving Repr, DecidableEq

/-- The DiagramElement dataclass.  `relationships` is declared
`List[str] = None` in the source: its default is the absent sentinel, not
an empty list, hence the `Option` here. -/
structure DiagramElement where
  type : String
  confidence : ℚ
  bbox : Bbox
  text : Option String := none
  relationships : Option (List String) := none
deriving Repr, DecidableEq

/-- Placeholder element used for out-of-range list indexing (never
reached by the enumerations below, which stay in range). -/
def dummyElement : DiagramElement :=
  { type := "", confidence := 0, bbox := ⟨0, 0, 0, 0⟩ }

/-- `aspect_ratio = float(w) / h if h > 0 else 0`. -/
def aspectRatio (w h : Nat) : ℚ :=
  if 0 < h then (w : ℚ) / (h : ℚ) else 0

/-- Shape classification from the approximated vertex count and the
bounding-box aspect ratio (`0.95 = 19/20`, `1.05 = 21/20`). -/
def classifyShape (numVertices : Nat) (w h : Nat) : String :=
  if numVertices = 4 then
    if (19 : ℚ)/20 ≤ aspectRatio w h ∧ aspectRatio w h ≤ (21 : ℚ)/20 then
      "box"
    else
      "rectangle"
  else if numVertices = 3 then "triangle"
  else if 8 < numVertices then "circle"
  else "shape"

/-- Element built for one contour that passed the area filter:
`confidence = min(area / 10000, 1.0)`, `bbox = (x, y, x+w, y+h)`, and the
classified type.  `text` and `relationships` keep their dataclass
defaults. -/
def mkDetectedElement (area : ℚ) (x y w h : Nat) (numVertices : Nat) :
    DiagramElement :=
  { type := classifyShape numVertices w h
    confidence := min (area / 10000) 1
    bbox := ⟨x, y, x + w, y + h⟩ }

/-- Attributes cv2 computes for one extracted contour: `contourArea`,
`boundingRect`, and the vertex count of the `approxPolyDP` approximation
with tolerance `0.04 × arcLength`.  The OpenCV calls themselves are
external; each contour is represented by these computed attributes. -/
structure Contour where
  area : ℚ
  x : Nat
  y : Nat
  w : Nat
  h : Nat
  numVertices : Nat
deriving Repr

/-- The per-contour loop of `detect_elements`: contours with
`area < min_area = 100` are skipped, every other contour yields one
element, in contour order. -/
def detectElements (contours : List Contour) : List DiagramElement :=
  contours.filterMap fun c =>
    if c.area < 100 then none
    else some (mkDetectedElement c.area c.x c.y c.w c.h c.numVertices)

/-- The four directional relation statements of the spatial-relation
loop. -/
inductive Rel where
  | above
  | below
  | leftOf
  | rightOf
deriving Repr, DecidableEq

/-- Statements the loop body emits for one examined ordered pair
`(elem1, elem2)`: the horizontal-overlap test may emit `above` or
`below` (mutually exclusive by if/elif), the vertical-overlap test may
emit `leftOf` or `rightOf` (likewise). -/
def pairRelations (u v : Bbox) : List Rel :=
  (if u.x1 < v.x2 ∧ v.x1 < u.x2 then
    if u.y2 < v.y1 then [Rel.above]
    else if v.y2 < u.y1 then [Rel.below]
    else []
  else []) ++
  (if u.y1 < v.y2 ∧ v.y1 < u.y2 then
    if u.x2 < v.x1 then [Rel.leftOf]
    else if v.x2 < u.x1 then [Rel.rightOf]
    else []
  else [])

/-- Index pairs visited by
`for i, elem1 in enumerate(elements): for elem2 in elements[i+1:]`,
in visit order. -/
def examinedPairs (n : Nat) : List (Nat × Nat) :=
  (List.range n).flatMap fun i =>
    (List.range (n - (i + 1))).map fun k => (i, i + 1 + k)

/-- All relation statements the spatial-relation loop emits for an
element list, tagged with the indices of the examined pair, in emission
order. -/
def relStatements (els : List DiagramElement) : List (Nat × Nat × Rel) :=
  (examinedPairs els.length).flatMap fun p =>
    (pairRelations (els.getD p.1 dummyElement).bbox
        (els.getD p.2 dummyElement).bbox).map fun r => (p.1, p.2, r)

/-- Portuguese connective of one relation statement. -/
def relText : Rel → String
  | .above => " está acima de "
  | .below => " está abaixo de "
  | .leftOf => " está à esquerda de "
  | .rightOf => " está à direita de "

/-- Rendered statement lines appended to the description, in emission
order. -/
def renderStatements (els : List DiagramElement) : List String :=
  (relStatements els).map fun s =>
    "- " ++ (els.getD s.1 dummyElement).type ++ relText s.2.2 ++
      (els.getD s.2.1 dummyElement).type ++ "\n"

/-- `sum(1 for e in elements if e.type == element_type)`. -/
def countType (els : List DiagramElement) (t : String) : Nat :=
  (els.filter fun e => e.type == t).length

/-- `list(set(e.type for e in elements))`; CPython set iteration order is
implementation defined, modelled as first-seen order. -/
def dedupFirstSeen : List String → List String
  | [] => []
  | t :: ts => t :: (dedupFirstSeen ts).filter (fun u => u ≠ t)

/-- Description text composed for a non-empty element list: header with
the total count, one line per distinct type with its count, then every
relation statement in emission order. -/
def buildDescription (els : List DiagramElement) : String :=
  let types := dedupFirstSeen (els.map fun e => e.type)
  let header := "Diagrama contendo " ++ toString els.length ++ " elementos:\n"
  let typeLines := String.join (types.map fun t =>
    "- " ++ toString (countType els t) ++ " " ++ t ++ "(s)\n")
  header ++ typeLines ++ String.join (renderStatements els)

/-- The langchain Document produced by `process_diagram`, with its
metadata dict flattened into fields (`error_message = none` models the
key being absent). -/
structure AnalysisDocument where
  page_content : String
  source : String
  type : String
  num_elements : Nat
  element_types_str : String
  status : String
  error_message : Option String := none
deriving Repr, DecidableEq

/-- `process_diagram`: the caught result of `detect_elements` (an
`Except.error` is an exception propagated from preprocessing or
detection) determines the document: an error document, a
no-elements-detected document, or a success document whose content is the
composed description. -/
def processDiagram (imagePath : String)
    (detected : Except String (List DiagramElement)) : AnalysisDocument :=
  match detected with
  | .error e =>
    { page_content := "Erro ao processar diagrama: " ++ e
      source := imagePath
      type := "diagram"
      num_elements := 0
      element_types_str := ""
      status := "error"
      error_message := some e }
  | .ok els =>
    if els.isEmpty then
      { page_content := "Nenhum elemento foi detectado no diagrama."
        source := imagePath
        type := "diagram"
        num_elements := 0
        element_types_str := ""
        status := "no_elements_detected" }
    else
      { page_content := buildDescription els
        source := imagePath
        type := "diagram"
        num_elements := els.length
        element_types_str :=
          String.intercalate ", " (dedupFirstSeen (els.map fun e => e.type))
        status := "success" }

/-! Theorems. -/

theorem mem_examinedPairs (n i j : Nat) :
    (i, j) ∈ examinedPairs n ↔ i < j ∧ j < n := by
  simp only [examinedPairs, List.mem_flatMap, List.mem_map, List.mem_range,
    Prod.mk.injEq]
  constructor
  · rintro ⟨a, ha, k, hk, rfl, rfl⟩
    omega
  · rintro ⟨hij, hjn⟩
    exact ⟨i, by omega, j - i - 1, by omega, rfl, by omega⟩

theorem nodup_examinedPairs (n : Nat) : (examinedPairs n).Nodup := by
  rw [examinedPairs, List.nodup_flatMap]
  refine ⟨fun i _ => ?_, ?_⟩
  · exact (List.nodup_range _).map
      (fun a b h => by simpa using congrArg Prod.snd h)
  · refine (List.pairwise_lt_range _).imp ?_
    intro a b hab
    intro p hpa hpb
    simp only [Function.onFun, List.mem_map] at hpa hpb
    obtain ⟨k, _, rfl⟩ := hpa
    obtain ⟨k', _, h⟩ := hpb
    exact absurd (congrArg Prod.fst h) (by simpa using hab.ne')

theorem mem_relStatements (els : List DiagramElement) (i j : Nat) (r : Rel) :
    (i, j, r) ∈ relStatements els ↔
      (i, j) ∈ examinedPairs els.length ∧
        r ∈ pairRelations (els.getD i dummyElement).bbox
          (els.getD j dummyElement).bbox := by
  simp only [relStatements, List.mem_flatMap, List.mem_map, Prod.mk.injEq]
  constructor
  · rintro ⟨⟨a, b⟩, hp, r', hr', rfl, rfl, rfl⟩
    exact ⟨hp, hr'⟩
  · rintro ⟨hp, hr⟩
    exact ⟨(i, j), hp, r, hr, rfl, rfl, rfl⟩

theorem pairRelations_not_above_below (u v : Bbox) :
    ¬(Rel.above ∈ pairRelations u v ∧ Rel.below ∈ pairRelations u v) := by
  rintro ⟨ha, hb⟩
  simp only [pairRelations, List.mem_append] at ha hb
  split_ifs at ha hb <;> simp_all

theorem pairRelations_not_left_right (u v : Bbox) :
    ¬(Rel.leftOf ∈ pairRelations u v ∧ Rel.rightOf ∈ pairRelations u v) := by
  rintro ⟨ha, hb⟩
  simp only [pairRelations, List.mem_append] at ha hb
  split_ifs at ha hb <;> simp_all

/-- C8: processing a single diagram through the composer always yields a
document: on an upstream decode/detection error the document's content is
the error message, its status is `error`, its `error_message` is set
and its element count is 0; for an empty element list the status is
`no_elements_detected` with element count 0. -/
theorem processDiagram_error_and_empty (p e : String) :
    processDiagram p (Except.error e) =
      { page_content := "Erro ao processar diagrama: " ++ e
        source := p
        type := "diagram"
        num_elements := 0
        element_types_str := ""
        status := "error"
        error_message := some e } ∧
    processDiagram p (Except.ok []) =
      { page_content := "Nenhum elemento foi detectado no diagrama."
        source := p
        type := "diagram"
        num_elements := 0
        element_types_str := ""
        status := "no_elements_detected"
        error_message := none } :=
  ⟨rfl, rfl⟩

/-- C9: the classification table of `detect_elements`: 4 vertices with
aspect ratio within [0.95, 1.05] is a box, 4 vertices otherwise a
rectangle, 3 vertices a triangle, more than 8 a circle, anything else the
fallback shape. -/
theorem classifyShape_table (v w h : Nat) :
    (v = 4 → (19 : ℚ)/20 ≤ aspectRatio w h → aspectRatio w h ≤ (21 : ℚ)/20 →
      classifyShape v w h = "box") ∧
    (v = 4 → ¬((19 : ℚ)/20 ≤ aspectRatio w h ∧ aspectRatio w h ≤ (21 : ℚ)/20) →
      classifyShape v w h = "rectangle") ∧
    (v = 3 → classifyShape v w h = "triangle") ∧
    (8 < v → classifyShape v w h = "circle") ∧
    (v ≠ 4 → v ≠ 3 → v ≤ 8 → classifyShape v w h = "shape") := by
  refine ⟨?_, ?_, ?_, ?_, ?_⟩ <;> intros <;>
    (simp only [classifyShape]
     split_ifs <;> simp_all <;> omega)

/-- C9 witness: a 4-vertex contour with a 10×10 bounding box is a box. -/
theorem classifyShape_table_witness : classifyShape 4 10 10 = "box" :=
  (classifyShape_table 4 10 10).1 rfl (by norm_num [aspectRatio])
    (by norm_num [aspectRatio])

/-- C6: every unordered pair of distinct elements is examined exactly
once, in index order i < j (the visited pair list has no duplicates and
contains precisely the pairs with i < j < n); the statements emitted for
a pair never contain both above and below, never both left-of and
right-of, and never the same directional statement in both
orientations. -/
theorem relStatements_pair_discipline (els : List DiagramElement) :
    (examinedPairs els.length).Nodup ∧
    (∀ i j, (i, j) ∈ examinedPairs els.length ↔ i < j ∧ j < els.length) ∧
    (∀ i j r, (i, j, r) ∈ relStatements els → i < j ∧ j < els.length) ∧
    (∀ i j, ¬((i, j, Rel.above) ∈ relStatements els ∧
      (i, j, Rel.below) ∈ relStatements els)) ∧
    (∀ i j, ¬((i, j, Rel.leftOf) ∈ relStatements els ∧
      (i, j, Rel.rightOf) ∈ relStatements els)) ∧
    (∀ i j r, (i, j, r) ∈ relStatements els → (j, i, r) ∉ relStatements els) := by
  refine ⟨nodup_examinedPairs _, fun i j => mem_examinedPairs _ i j,
    ?_, ?_, ?_, ?_⟩
  · intro i j r h
    exact (mem_examinedPairs _ i j).1 ((mem_relStatements els i j r).1 h).1
  · rintro i j ⟨ha, hb⟩
    exact pairRelations_not_above_below _ _
      ⟨((mem_relStatements els i j _).1 ha).2,
        ((mem_relStatements els i j _).1 hb).2⟩
  · rintro i j ⟨ha, hb⟩
    exact pairRelations_not_left_right _ _
      ⟨((mem_relStatements els i j _).1 ha).2,
        ((mem_relStatements els i j _).1 hb).2⟩
  · intro i j r h h'
    have h1 := (mem_examinedPairs _ i j).1 ((mem_relStatements els i j r).1 h).1
    have h2 := (mem_examinedPairs _ j i).1 ((mem_relStatements els j i r).1 h').1
    omega

/-- C6 witness: in a two-element list the pair (0, 1) is examined. -/
theorem relStatements_pair_discipline_witness :
    (0, 1) ∈ examinedPairs
      ([dummyElement, dummyElement] : List DiagramElement).length :=
  ((relStatements_pair_discipline [dummyElement, dummyElement]).2.1 0 1).mpr
    (by decide)

/-- C4 counterexample: a successful run of the annotation pass over two
detector-built elements emits a relation statement, yet each element's
`relationships` field is still the null sentinel `None`, not an (empty or
populated) sequence. -/
theorem relationships_null_counterexample :
    (processDiagram "d.png" (Except.ok
        [mkDetectedElement 200 0 0 10 10 4,
          mkDetectedElement 200 0 30 10 10 12])).status = "success" ∧
    relStatements
        [mkDetectedElement 200 0 0 10 10 4,
          mkDetectedElement 200 0 30 10 10 12] = [(0, 1, Rel.above)] ∧
    List.map DiagramElement.relationships
        [mkDetectedElement 200 0 0 10 10 4,
          mkDetectedElement 200 0 30 10 10 12] = [none, none] :=
  ⟨rfl, rfl, rfl⟩

/-- C4 amended: every element the detector emits carries
`relationships = none` (the dataclass default); the annotator attaches the
relation statements only to the composed description text, never to the
elements. -/
theorem relationships_default_amended (cs : List Contour) (p : String)
    (els : List DiagramElement) :
    (∀ e ∈ detectElements cs, e.relationships = none) ∧
    (els ≠ [] →
      (processDiagram p (Except.ok els)).page_content = buildDescription els) := by
  constructor
  · intro e he
    simp only [detectElements, List.mem_filterMap] at he
    obtain ⟨c, _, hc⟩ := he
    by_cases h : c.area < 100
    · simp [h] at hc
    · simp [h] at hc
      rw [← hc]
      rfl
  · intro hne
    cases els with
    | nil => exact absurd rfl hne
    | cons e es => rfl

/-- C4 amended witness: the document for a one-element list carries the
composed description. -/
theorem relationships_default_amended_witness :
    (processDiagram "p.png" (Except.ok [dummyElement])).page_content =
      buildDescription [dummyElement] :=
  (relationships_default_amended [] "p.png" [dummyElement]).2 (by simp)

theorem getCachedResult_memoized (cfg : BatchConfig) (hashFn : Bytes → String)
    (fs : FileSys) (now : Int) (st : BatchState) (path : String)
    (v : Option Json) (hmemo : st.memo.lookup path = some v) :
    getCachedResult cfg hashFn fs now st path =
      .ok (v, { st with memo := memoTouch st.memo path }) := by
  unfold getCachedResult memoHit
  rw [hmemo]

theorem getCachedResult_fresh (cfg : BatchConfig) (hashFn : Bytes → String)
    (fs : FileSys) (now : Int) (st : BatchState) (path h : String)
    (hmemo : st.memo.lookup path = none)
    (hhash : getImageHash hashFn fs path = .ok h) :
    getCachedResult cfg hashFn fs now st path =
      .ok (diskLookup cfg now st.cache h,
        { st with memo := memoInsert st.memo path (diskLookup cfg now st.cache h) }) := by
  unfold getCachedResult memoHit diskLookup
  rw [hmemo, hhash]

/-- C1 counterexample: with a 1-hour TTL, after `put` at time 0 and a
`get` at time 0 (which memoizes the payload), a `get` at time 7200 — when
the on-disk entry's age 7200 is at least the TTL 3600 — still returns the
payload instead of absent, because the lru_cache layer replays it. -/
theorem cache_get_expired_counterexample :
    ((runOps ⟨1, 4⟩ (fun _ => "h") [("a", [0])] ⟨[], []⟩
        [CacheOp.put 0 "a" (Json.str "v"), CacheOp.get 0 "a"]).cache.lookup
      (getCachePath "h") = some ⟨0, Json.str "v"⟩) ∧
    hours (1 : Int) ≤ 7200 - 0 ∧
    getResultValue (getCachedResult ⟨1, 4⟩ (fun _ => "h") [("a", [0])] 7200
        (runOps ⟨1, 4⟩ (fun _ => "h") [("a", [0])] ⟨[], []⟩
          [CacheOp.put 0 "a" (Json.str "v"), CacheOp.get 0 "a"]) "a") =
      some (some (Json.str "v")) :=
  ⟨rfl, by decide, rfl⟩

/-- C1 amended: a get on a key whose entry's age is at least the TTL
returns absent and leaves the entry on disk, provided no earlier get in
the same process memoized a payload for that path (the lru_cache layer
otherwise replays the memoized payload regardless of the TTL). -/
theorem cache_get_expired_amended (cfg : BatchConfig)
    (hashFn : Bytes → String) (fs : FileSys) (now : Int) (st : BatchState)
    (path h : String) (mt : Int) (pl : Json)
    (hmemo : ∀ v, st.memo.lookup path = some v → v = none)
    (hhash : getImageHash hashFn fs path = .ok h)
    (hentry : st.cache.lookup (getCachePath h) = some ⟨mt, pl⟩)
    (hexp : hours cfg.cacheTTL ≤ now - mt) :
    getResultValue (getCachedResult cfg hashFn fs now st path) = some none ∧
    ∀ st', getResultState (getCachedResult cfg hashFn fs now st path) =
      some st' → st'.cache = st.cache := by
  have hvalid : isCacheValid cfg now st.cache (getCachePath h) = false := by
    simp only [isCacheValid, hentry, decide_eq_false_iff_not, not_lt]
    exact hexp
  cases hm : st.memo.lookup path with
  | some v =>
    have hv := hmemo v hm
    subst hv
    rw [getCachedResult_memoized cfg hashFn fs now st path none hm]
    exact ⟨rfl, fun st' h' => by
      simp only [getResultState, Option.some.injEq] at h'
      rw [← h']⟩
  | none =>
    have hdl : diskLookup cfg now st.cache h = none := by
      simp [diskLookup, hvalid]
    rw [getCachedResult_fresh cfg hashFn fs now st path h hm hhash, hdl]
    exact ⟨rfl, fun st' h' => by
      simp only [getResultState, Option.some.injEq] at h'
      rw [← h']⟩

/-- C1 amended witness: the first get for a path whose entry is 7200
seconds old under a 1-hour TTL returns absent. -/
theorem cache_get_expired_amended_witness :
    getResultValue (getCachedResult ⟨1, 4⟩ (fun _ => "h") [("a", [0])] 7200
      ⟨[("h.json", ⟨0, Json.null⟩)], []⟩ "a") = some none :=
  (cache_get_expired_amended ⟨1, 4⟩ (fun _ => "h") [("a", [0])] 7200
    ⟨[("h.json", ⟨0, Json.null⟩)], []⟩ "a" "h" 0 Json.null
    (fun v hv => by cases hv) rfl rfl (by decide)).1

/-- C10: an existing, unexpired cache entry whose payload is falsy (for
example the empty object) is treated as a miss by the per-image step: the
analysis function is invoked and its fresh result both returned and
written over the cache entry. -/
theorem falsy_cache_treated_as_miss (cfg : BatchConfig)
    (hashFn : Bytes → String) (fs : FileSys) (now : Int)
    (analyze : String → Except String Json) (st : BatchState)
    (path : String) (bs : Bytes) (mt : Int) (pl r : Json)
    (hfile : fs.lookup path = some bs)
    (hmemo : st.memo.lookup path = none)
    (hentry : st.cache.lookup (getCachePath (hashFn bs)) = some ⟨mt, pl⟩)
    (hfresh : now - mt < hours cfg.cacheTTL)
    (hfalsy : pl.isTruthy = false)
    (hok : analyze path = .ok r) :
    processSingleImage cfg hashFn fs now analyze st path =
      .ok (r, saveToCache hashFn fs now
        { st with memo := memoInsert st.memo path (some pl) } path r) ∧
    (saveToCache hashFn fs now
        { st with memo := memoInsert st.memo path (some pl) } path r).cache.lookup
      (getCachePath (hashFn bs)) = some ⟨now, r⟩ := by
  have hhash : getImageHash hashFn fs path = .ok (hashFn bs) := by
    unfold getImageHash
    rw [hfile]
  have hvalid : isCacheValid cfg now st.cache (getCachePath (hashFn bs)) = true := by
    simp only [isCacheValid, hentry, decide_eq_true_eq]
    exact hfresh
  have hdl : diskLookup cfg now st.cache (hashFn bs) = some pl := by
    simp [diskLookup, hvalid, hentry]
  constructor
  · unfold processSingleImage
    rw [getCachedResult_fresh cfg hashFn fs now st path (hashFn bs) hmemo hhash,
      hdl]
    simp [hfalsy, hok]
  · unfold saveToCache
    rw [hhash]
    simp [List.lookup]

/-- C10 witness: an unexpired entry holding the empty object is
re-analyzed and overwritten. -/
theorem falsy_cache_treated_as_miss_witness :
    (saveToCache (fun _ => "h") [("a", [0])] 0
        ⟨[("h.json", ⟨0, Json.obj []⟩)], [("a", some (Json.obj []))]⟩
        "a" (Json.str "w")).cache.lookup (getCachePath "h") =
      some ⟨0, Json.str "w"⟩ :=
  (falsy_cache_treated_as_miss ⟨1, 4⟩ (fun _ => "h") [("a", [0])] 0
    (fun _ => Except.ok (Json.str "w")) ⟨[("h.json", ⟨0, Json.obj []⟩)], []⟩
    "a" [0] 0 (Json.obj []) (Json.str "w")
    rfl rfl rfl (by decide) rfl rfl).2

/-- C7 counterexample: two paths with identical bytes share one cache
key; after the first path's analysis result — the falsy empty object —
is stored, processing the second path within the TTL re-invokes the
analysis function (observable because the record carries the second
invocation's fresh value, not the stored payload). -/
theorem content_hash_hit_counterexample :
    (List.lookup "a" ([("a", [0]), ("b", [0])] : FileSys) =
        List.lookup "b" ([("a", [0]), ("b", [0])] : FileSys)) ∧
    processSingleImage ⟨1, 4⟩ (fun _ => "h") [("a", [0]), ("b", [0])] 0
        (fun p => if p = "a" then Except.ok (Json.obj [])
          else Except.ok (Json.str "fresh")) ⟨[], []⟩ "a" =
      .ok (Json.obj [], ⟨[("h.json", ⟨0, Json.obj []⟩)], [("a", none)]⟩) ∧
    ((0 : Int) - 0 < hours 1) ∧
    processValue (processSingleImage ⟨1, 4⟩ (fun _ => "h")
        [("a", [0]), ("b", [0])] 0
        (fun p => if p = "a" then Except.ok (Json.obj [])
          else Except.ok (Json.str "fresh"))
        ⟨[("h.json", ⟨0, Json.obj []⟩)], [("a", none)]⟩ "b") =
      some (Json.str "fresh") ∧
    Json.str "fresh" ≠ Json.obj [] :=
  ⟨rfl, rfl, by decide, rfl, fun hcontra => Json.noConfusion hcontra⟩

/-- C7 amended: identical bytes give identical cache keys, and once a
truthy payload is stored under the key, processing the second path within
the TTL (with no stale memo entry for that path) returns the stored
payload whatever the analysis function is — so the analysis is not
invoked.  A falsy stored payload is instead treated as a miss and
re-analyzed. -/
theorem content_hash_hit_amended (cfg : BatchConfig)
    (hashFn : Bytes → String) (fs : FileSys) (now : Int) (st : BatchState)
    (p1 p2 : String) (bs : Bytes) (mt : Int) (pl : Json)
    (h1 : fs.lookup p1 = some bs) (h2 : fs.lookup p2 = some bs)
    (hmemo : st.memo.lookup p2 = none)
    (hentry : st.cache.lookup (getCachePath (hashFn bs)) = some ⟨mt, pl⟩)
    (hfresh : now - mt < hours cfg.cacheTTL)
    (htruthy : pl.isTruthy = true) :
    getImageHash hashFn fs p1 = getImageHash hashFn fs p2 ∧
    ∀ analyze, processSingleImage cfg hashFn fs now analyze st p2 =
      .ok (pl, { st with memo := memoInsert st.memo p2 (some pl) }) := by
  have hhash : getImageHash hashFn fs p2 = .ok (hashFn bs) := by
    unfold getImageHash
    rw [h2]
  have hvalid : isCacheValid cfg now st.cache (getCachePath (hashFn bs)) = true := by
    simp only [isCacheValid, hentry, decide_eq_true_eq]
    exact hfresh
  constructor
  · unfold getImageHash
    rw [h1, h2]
  · intro analyze
    have hdl : diskLookup cfg now st.cache (hashFn bs) = some pl := by
      simp [diskLookup, hvalid, hentry]
    unfold processSingleImage
    rw [getCachedResult_fresh cfg hashFn fs now st p2 (hashFn bs) hmemo hhash,
      hdl]
    simp [htruthy]

/-- C7 amended witness: the second path's processing returns the stored
truthy payload even under an analysis function that always raises. -/
theorem content_hash_hit_amended_witness :
    processSingleImage ⟨1, 4⟩ (fun _ => "h") [("a", [0]), ("b", [0])] 0
        (fun _ => Except.error "never invoked")
        ⟨[("h.json", ⟨0, Json.str "v"⟩)], []⟩ "b" =
      .ok (Json.str "v",
        ⟨[("h.json", ⟨0, Json.str "v"⟩)], [("b", some (Json.str "v"))]⟩) :=
  (content_hash_hit_amended ⟨1, 4⟩ (fun _ => "h") [("a", [0]), ("b", [0])] 0
    ⟨[("h.json", ⟨0, Json.str "v"⟩)], []⟩ "a" "b" [0] 0 (Json.str "v")
    rfl rfl rfl rfl (by decide) rfl).2 (fun _ => Except.error "never invoked")

theorem processBatchGroup_append (cfg : BatchConfig)
    (hashFn : Bytes → String) (fs : FileSys) (now : Int)
    (analyze : String → Except String Json) (xs ys : List String)
    (st : BatchState) :
    processBatchGroup cfg hashFn fs now analyze (xs ++ ys) st =
      ((processBatchGroup cfg hashFn fs now analyze xs st).1 ++
        (processBatchGroup cfg hashFn fs now analyze ys
          (processBatchGroup cfg hashFn fs now analyze xs st).2).1,
        (processBatchGroup cfg hashFn fs now analyze ys
          (processBatchGroup cfg hashFn fs now analyze xs st).2).2) := by
  induction xs generalizing st with
  | nil => simp [processBatchGroup]
  | cons p ps ih =>
    simp only [List.cons_append, processBatchGroup]
    cases h : processSingleImage cfg hashFn fs now analyze st p with
    | ok v => simp [ih]
    | error e => simp [ih]

theorem processBatchAux_chunksOfGo (cfg : BatchConfig)
    (hashFn : Bytes → String) (fs : FileSys) (now : Int)
    (analyze : String → Except String Json) (n : Nat) (hn : 0 < n) :
    ∀ (fuel : Nat) (l : List String) (st : BatchState), l.length ≤ fuel →
      processBatchAux cfg hashFn fs now analyze (chunksOfGo n fuel l) st =
        processBatchGroup cfg hashFn fs now analyze l st := by
  intro fuel
  induction fuel with
  | zero =>
    intro l st hl
    rw [List.eq_nil_of_length_eq_zero (Nat.le_zero.mp hl)]
    rfl
  | succ fuel ih =>
    intro l st hl
    cases l with
    | nil => rfl
    | cons x xs =>
      have hrec := ih ((x :: xs).drop n)
        (processBatchGroup cfg hashFn fs now analyze ((x :: xs).take n) st).2
        (by simp only [List.length_drop, List.length_cons]
            simp only [List.length_cons] at hl
            omega)
      calc processBatchAux cfg hashFn fs now analyze
            (chunksOfGo n (fuel + 1) (x :: xs)) st
          = ((processBatchGroup cfg hashFn fs now analyze ((x :: xs).take n) st).1 ++
              (processBatchAux cfg hashFn fs now analyze
                (chunksOfGo n fuel ((x :: xs).drop n))
                (processBatchGroup cfg hashFn fs now analyze ((x :: xs).take n) st).2).1,
              (processBatchAux cfg hashFn fs now analyze
                (chunksOfGo n fuel ((x :: xs).drop n))
                (processBatchGroup cfg hashFn fs now analyze ((x :: xs).take n) st).2).2) := rfl
        _ = ((processBatchGroup cfg hashFn fs now analyze ((x :: xs).take n) st).1 ++
              (processBatchGroup cfg hashFn fs now analyze ((x :: xs).drop n)
                (processBatchGroup cfg hashFn fs now analyze ((x :: xs).take n) st).2).1,
              (processBatchGroup cfg hashFn fs now analyze ((x :: xs).drop n)
                (processBatchGroup cfg hashFn fs now analyze ((x :: xs).take n) st).2).2) := by
            rw [hrec]
        _ = processBatchGroup cfg hashFn fs now analyze
              ((x :: xs).take n ++ (x :: xs).drop n) st := by
            rw [processBatchGroup_append]
        _ = processBatchGroup cfg hashFn fs now analyze (x :: xs) st := by
            rw [List.take_append_drop]

theorem processBatch_eq_group (cfg : BatchConfig) (hashFn : Bytes → String)
    (fs : FileSys) (now : Int) (analyze : String → Except String Json)
    (hn : 0 < cfg.batchSize) (st : BatchState) (paths : List String) :
    processBatch cfg hashFn fs now analyze st paths =
      processBatchGroup cfg hashFn fs now analyze paths st :=
  processBatchAux_chunksOfGo cfg hashFn fs now analyze cfg.batchSize hn
    paths.length paths st le_rfl

theorem processBatchGroup_map_path (cfg : BatchConfig)
    (hashFn : Bytes → String) (fs : FileSys) (now : Int)
    (analyze : String → Except String Json) (paths : List String)
    (st : BatchState) :
    (processBatchGroup cfg hashFn fs now analyze paths st).1.map
      BatchRecord.path = paths := by
  induction paths generalizing st with
  | nil => rfl
  | cons p ps ih =>
    simp only [processBatchGroup]
    cases h : processSingleImage cfg hashFn fs now analyze st p with
    | ok v => simp [BatchRecord.path, ih]
    | error e => simp [BatchRecord.path, ih]

/-- C5: for every batch-size partitioning (`batch_size > 0`, as required
for the Python slicing loop to terminate), `process_batch` returns exactly
one record per input path and the record order matches the input order of
the paths. -/
theorem processBatch_one_record_per_path_in_order (cfg : BatchConfig)
    (hashFn : Bytes → String) (fs : FileSys) (now : Int)
    (analyze : String → Except String Json) (hn : 0 < cfg.batchSize)
    (st : BatchState) (paths : List String) :
    (processBatch cfg hashFn fs now analyze st paths).1.map
      BatchRecord.path = paths := by
  rw [processBatch_eq_group cfg hashFn fs now analyze hn]
  exact processBatchGroup_map_path cfg hashFn fs now analyze paths st

/-- C5 witness: a two-path batch returns records for those paths in
order. -/
theorem processBatch_one_record_per_path_in_order_witness :
    (processBatch ⟨1, 4⟩ (fun _ => "h") [] 0 (fun _ => Except.error "x")
      ⟨[], []⟩ ["a", "b"]).1.map BatchRecord.path = ["a", "b"] :=
  processBatch_one_record_per_path_in_order ⟨1, 4⟩ (fun _ => "h") [] 0
    (fun _ => Except.error "x") (by decide) ⟨[], []⟩ ["a", "b"]

/-- C2 counterexample: a path whose analysis fails (while the path's file
itself is readable) produces a record of shape
`{"path": p, "result": {"error": msg}}`, not the claimed
`{"path": p, "error": msg}` shape. -/
theorem per_item_failure_shape_counterexample :
    (processBatch ⟨1, 4⟩ (fun _ => "h") [("a", [0])] 0
        (fun _ => Except.error "boom") ⟨[], []⟩ ["a"]).1 =
      [BatchRecord.result "a" (Json.obj [("error", Json.str "boom")])] ∧
    BatchRecord.isError
      (BatchRecord.result "a" (Json.obj [("error", Json.str "boom")])) =
        false :=
  ⟨rfl, rfl⟩

theorem processSingleImage_error_characterization (cfg : BatchConfig)
    (hashFn : Bytes → String) (fs : FileSys) (now : Int)
    (analyze : String → Except String Json) (st : BatchState) (p : String)
    (e : String)
    (he : processSingleImage cfg hashFn fs now analyze st p = .error e) :
    st.memo.lookup p = none ∧ fs.lookup p = none ∧
      e = "No such file or directory: " ++ p := by
  cases hm : st.memo.lookup p with
  | some v =>
    unfold processSingleImage at he
    rw [getCachedResult_memoized cfg hashFn fs now st p v hm] at he
    cases v with
    | none =>
      cases ha : analyze p with
      | ok r => simp [ha] at he
      | error e' => simp [ha] at he
    | some r =>
      by_cases ht : r.isTruthy
      · simp [ht] at he
      · cases ha : analyze p with
        | ok r' => simp [ht, ha] at he
        | error e' => simp [ht, ha] at he
  | none =>
    cases hf : fs.lookup p with
    | some bs =>
      have hhash : getImageHash hashFn fs p = .ok (hashFn bs) := by
        unfold getImageHash
        rw [hf]
      unfold processSingleImage at he
      rw [getCachedResult_fresh cfg hashFn fs now st p (hashFn bs) hm hhash]
        at he
      cases hdl : diskLookup cfg now st.cache (hashFn bs) with
      | none =>
        rw [hdl] at he
        cases ha : analyze p with
        | ok r => simp [ha] at he
        | error e' => simp [ha] at he
      | some r =>
        rw [hdl] at he
        by_cases ht : r.isTruthy
        · simp [ht] at he
        · cases ha : analyze p with
          | ok r' => simp [ht, ha] at he
          | error e' => simp [ht, ha] at he
    | none =>
      have hraise : getCachedResult cfg hashFn fs now st p =
          .error ("No such file or directory: " ++ p) := by
        unfold getCachedResult memoHit getImageHash
        rw [hm, hf]
      unfold processSingleImage at he
      rw [hraise] at he
      simp only [Except.error.injEq] at he
      exact ⟨rfl, rfl, he.symm⟩

/-- C2 amended: a per-item failure that escapes the worker is recorded as
a `{"path", "error"}` record, and this happens exactly when the path's
file cannot be read while hashing for the cache lookup (with no memo
entry for the path); a failure raised inside the guarded analysis call is
caught in the worker and recorded as a `{"path", "result"}` record whose
result is `{"error": msg}` with the error as a string.  In both cases the
remaining paths of the batch are still processed and their records
returned. -/
theorem per_item_failure_amended (cfg : BatchConfig)
    (hashFn : Bytes → String) (fs : FileSys) (now : Int)
    (analyze : String → Except String Json) (hn : 0 < cfg.batchSize)
    (st : BatchState) (p : String) (rest : List String) :
    (∀ e, processSingleImage cfg hashFn fs now analyze st p = .error e →
      (processBatch cfg hashFn fs now analyze st (p :: rest)).1 =
        BatchRecord.error p e ::
          (processBatchGroup cfg hashFn fs now analyze rest st).1) ∧
    (∀ r st1,
      processSingleImage cfg hashFn fs now analyze st p = .ok (r, st1) →
      (processBatch cfg hashFn fs now analyze st (p :: rest)).1 =
        BatchRecord.result p r ::
          (processBatchGroup cfg hashFn fs now analyze rest st1).1) ∧
    (∀ e, processSingleImage cfg hashFn fs now analyze st p = .error e →
      st.memo.lookup p = none ∧ fs.lookup p = none ∧
        e = "No such file or directory: " ++ p) ∧
    (∀ e bs, st.memo.lookup p = none → fs.lookup p = some bs →
      st.cache.lookup (getCachePath (hashFn bs)) = none →
      analyze p = .error e →
      processSingleImage cfg hashFn fs now analyze st p =
        .ok (Json.obj [("error", Json.str e)],
          { st with memo := memoInsert st.memo p none })) := by
  refine ⟨?_, ?_, ?_, ?_⟩
  · intro e he
    rw [processBatch_eq_group cfg hashFn fs now analyze hn]
    simp only [processBatchGroup, he]
  · intro r st1 he
    rw [processBatch_eq_group cfg hashFn fs now analyze hn]
    simp only [processBatchGroup, he]
  · intro e he
    exact processSingleImage_error_characterization cfg hashFn fs now
      analyze st p e he
  · intro e bs hm hf hc ha
    have hhash : getImageHash hashFn fs p = .ok (hashFn bs) := by
      unfold getImageHash
      rw [hf]
    have hdl : diskLookup cfg now st.cache (hashFn bs) = none := by
      simp [diskLookup, isCacheValid, hc]
    unfold processSingleImage
    rw [getCachedResult_fresh cfg hashFn fs now st p (hashFn bs) hm hhash,
      hdl]
    simp [ha]

/-- C2 amended witness: a batch over one unreadable path yields one
error-shaped record. -/
theorem per_item_failure_amended_witness :
    (processBatch ⟨1, 4⟩ (fun _ => "h") [] 0 (fun _ => Except.error "x")
        ⟨[], []⟩ ["a"]).1 =
      [BatchRecord.error "a" ("No such file or directory: " ++ "a")] :=
  (per_item_failure_amended ⟨1, 4⟩ (fun _ => "h") [] 0
    (fun _ => Except.error "x") (by decide) ⟨[], []⟩ "a" []).1
    ("No such file or directory: " ++ "a") rfl

theorem clearCacheBody_no_failure (now : Int) (olderThan : Option Int)
    (u : String → Bool) (cache : CacheDir)
    (hok : ∀ name, u name = false) :
    clearCacheBody now olderThan u cache =
      .ok (cache.filter (fun kv => keepEntry now olderThan kv.2)) := by
  induction cache with
  | nil => rfl
  | cons kv rest ih =>
    obtain ⟨name, e⟩ := kv
    simp only [clearCacheBody, List.filter_cons]
    by_cases hk : keepEntry now olderThan e
    · simp [hk, ih]
    · simp [hk, hok name, ih]

/-- C3 amended: when no filesystem failure occurs, the prune deletes
exactly the cache entries whose age is at least the threshold of N hours
(all entries when no threshold is given, since nothing is kept); a
filesystem failure during pruning is caught and logged, not raised: the
caller receives a normal return carrying the partially pruned directory
and the logged message. -/
theorem clearCache_prune_amended (now : Int) (olderThan : Option Int)
    (u : String → Bool) (cache : CacheDir) :
    ((∀ name, u name = false) →
      clearCache now olderThan u cache =
        (cache.filter (fun kv => keepEntry now olderThan kv.2), none)) ∧
    (∀ msg c, clearCacheBody now olderThan u cache = .error (msg, c) →
      clearCache now olderThan u cache = (c, some msg)) := by
  constructor
  · intro hok
    unfold clearCache
    rw [clearCacheBody_no_failure now olderThan u cache hok]
  · intro msg c h
    unfold clearCache
    rw [h]

/-- C3 amended witness: with a 1-hour threshold at time 7200, the entry
of age 7200 is deleted and the entry of age 200 is kept, with no
failure reported. -/
theorem clearCache_prune_amended_witness :
    clearCache 7200 (some 1) (fun _ => false)
        [("a.json", ⟨0, Json.null⟩), ("b.json", ⟨7000, Json.null⟩)] =
      ([("b.json", ⟨7000, Json.null⟩)], none) :=
  (clearCache_prune_amended 7200 (some 1) (fun _ => false)
    [("a.json", ⟨0, Json.null⟩), ("b.json", ⟨7000, Json.null⟩)]).1
    (fun _ => rfl)

/-- C3 counterexample: a failing unlink during a prune-all is suppressed:
the body raises, but `clear_cache` returns normally with the directory
untouched and the failure only logged — nothing is raised to the
caller. -/
theorem clearCache_suppresses_counterexample :
    clearCacheBody 0 none (fun _ => true) [("x.json", ⟨0, Json.null⟩)] =
      .error ("unlink failed: x.json", [("x.json", ⟨0, Json.null⟩)]) ∧
    clearCache 0 none (fun _ => true) [("x.json", ⟨0, Json.null⟩)] =
      ([("x.json", ⟨0, Json.null⟩)], some "unlink failed: x.json") :=
  ⟨rfl, rfl⟩

end AdaRag
